import Mathlib

/-!
Verification of the bader-db in-memory cache server against its
natural-language specification.

The development shallowly embeds the Rust sources:

* `src/resp/value.rs` / `src/resp/parser.rs` — the RESP wire codec.
  Rust `String`s are modelled as their UTF-8 byte sequences
  (`List Nat`); `String::from_utf8` becomes a UTF-8 validity check
  that returns the same bytes.  Rust panics (out-of-bounds indexing,
  out-of-bounds slicing, `unwrap` of `None`) are modelled by `Option`:
  `none` is a panic.  `usize` arithmetic that can wrap is taken with
  an explicit `% 2^64` (release-build semantics); `as usize` casts of
  `i64` are two's-complement reinterpretation.
* `src/cache/expiry.rs` / `src/cache/entry.rs` / `src/cache/mod.rs` —
  the keyed store with expirations and the randomized purge loop.
  `Instant`s are modelled as `Nat` milliseconds; the monotonic clock
  is passed explicitly as a `now` parameter.  The `BTreeMap` is
  modelled as an association list in iteration order with distinct
  keys.  The thread-local RNG of the purge loop is modelled as an
  oracle supplying the drawn index sets.
* `src/server/handler.rs` — the per-command request handlers, as pure
  functions from arguments and cache state to a reply value and a new
  cache state.
-/

namespace BaderDb

/-- Byte strings: a Rust `String`/`&[u8]` as its list of byte values. -/
abbrev Str := List Nat

/-- Byte value of `'\r' as u8` (src/resp/parser.rs line 5). -/
def CARRIAGE_RETURN : Nat := 13

/-- Byte value of `'\n' as u8` (src/resp/parser.rs line 6). -/
def NEWLINE : Nat := 10

/-- ASCII decimal digit test, as used by Rust's integer `from_str`. -/
def isDigit (b : Nat) : Bool := 48 ≤ b && b ≤ 57

/-- A UTF-8 continuation byte (`0x80..=0xBF`). -/
def isContinuation (b : Nat) : Bool := 128 ≤ b && b ≤ 191

/-- One step of the standard UTF-8 acceptance automaton (RFC 3629: no
overlong forms, no surrogates, maximum `U+10FFFF`).  State 0 accepts a
character boundary; states 1-7 await continuation bytes (with the
special E0/ED/F0/F4 second-byte ranges); state 9 rejects. -/
def utf8Step (state b : Nat) : Nat :=
  if state = 0 then
    (if b ≤ 127 then 0
     else if 194 ≤ b ∧ b ≤ 223 then 1
     else if b = 224 then 2
     else if (225 ≤ b ∧ b ≤ 236) ∨ b = 238 ∨ b = 239 then 3
     else if b = 237 then 4
     else if b = 240 then 5
     else if 241 ≤ b ∧ b ≤ 243 then 6
     else if b = 244 then 7
     else 9)
  else if state = 1 then (if 128 ≤ b ∧ b ≤ 191 then 0 else 9)
  else if state = 2 then (if 160 ≤ b ∧ b ≤ 191 then 1 else 9)
  else if state = 3 then (if 128 ≤ b ∧ b ≤ 191 then 1 else 9)
  else if state = 4 then (if 128 ≤ b ∧ b ≤ 159 then 1 else 9)
  else if state = 5 then (if 144 ≤ b ∧ b ≤ 191 then 3 else 9)
  else if state = 6 then (if 128 ≤ b ∧ b ≤ 191 then 3 else 9)
  else if state = 7 then (if 128 ≤ b ∧ b ≤ 143 then 3 else 9)
  else 9

/-- UTF-8 validity of a byte sequence, as checked by
`String::from_utf8`: the acceptance automaton ends on a character
boundary. -/
def utf8Valid (s : Str) : Bool := s.foldl utf8Step 0 = 0

/-- Model of `s.chars().count()` of a Rust string holding the bytes `s`: for
valid UTF-8 the number of characters is the number of
non-continuation bytes. -/
def charCount (s : Str) : Nat :=
  (s.filter (fun b => !isContinuation b)).length

/-- Value of a list of ASCII decimal digit bytes (most significant
first), the accumulator form used by integer parsing. -/
def digitsToNat (ds : Str) : Nat :=
  ds.foldl (fun a d => a * 10 + (d - 48)) 0

/-- Fuelled decimal formatter (the fuel is only there to make the
definition structurally recursive; `natToDec` supplies enough). -/
def natToDecAux : Nat → Nat → Str
  | 0, _ => []
  | f + 1, n => if n < 10 then [48 + n] else natToDecAux f (n / 10) ++ [48 + n % 10]

/-- Decimal formatting of a nonnegative integer, as `format!` renders a `usize`:
its ASCII decimal digits. -/
def natToDec (n : Nat) : Str := natToDecAux (n + 1) n

/-- Digit part of `str::parse::<i64>()`: one or more decimal digits
whose signed value fits the `i64` range. -/
def i64Digits (sign : Int) (ds : Str) : Option Int :=
  if ds = [] then none
  else if ds.all isDigit then
    if -(2 ^ 63) ≤ sign * (digitsToNat ds : Int) ∧
        sign * (digitsToNat ds : Int) ≤ 2 ^ 63 - 1 then
      some (sign * (digitsToNat ds : Int))
    else none
  else none

/-- Model of `str::parse::<i64>()` on the bytes `s`: optional sign, one or
more decimal digits, value within `i64` range. -/
def i64FromBytes (s : Str) : Option Int :=
  match s with
  | 43 :: rest => i64Digits 1 rest
  | 45 :: rest => i64Digits (-1) rest
  | _ => i64Digits 1 s

/-- Model of `str::parse::<u64>()` on the bytes `s`: optional `+`, one or more
decimal digits, value within `u64` range. -/
def u64FromBytes (s : Str) : Option Nat :=
  let ds : Str :=
    match s with
    | 43 :: rest => rest
    | _ => s
  if ds = [] then none
  else if ds.all isDigit then
    let v := digitsToNat ds
    if v ≤ 2 ^ 64 - 1 then some v else none
  else none

/-- Cast `i64 as usize`: two's-complement reinterpretation into `[0, 2^64)`. -/
def i64ToUsize (n : Int) : Nat := (n % (2 ^ 64 : Int)).toNat

/-! ## RESP values (src/resp/value.rs) -/

/-- The `enum Value` (src/resp/value.rs lines 6-13).  String payloads are
their UTF-8 bytes. -/
inductive Value : Type
  | Null : Value
  | SimpleString (s : Str) : Value
  | Integer (s : Str) : Value
  | Err (s : Str) : Value
  | BulkString (s : Str) : Value
  | Arr (items : List Value) : Value

/-- Encoding, `Value::encode` (src/resp/value.rs lines 35-44).  Here `none` models
the `panic!` on the `Array` arm. -/
def Value.encode : Value → Option Str
  | .Null => some [36, 45, 49, 13, 10]
  | .SimpleString s => some (43 :: (s ++ [13, 10]))
  | .Integer s => some (58 :: (s ++ [13, 10]))
  | .Err msg => some (45 :: (msg ++ [13, 10]))
  | .BulkString s => some (36 :: (natToDec (charCount s) ++ [13, 10] ++ s ++ [13, 10]))
  | .Arr _ => none

/-! ## RESP decoding (src/resp/parser.rs)

`parse_message` and its helpers return `Option (Except String α)`:
`none` is a Rust panic, `some (.error msg)` the `anyhow` error with
message `msg`, `some (.ok r)` success. -/

/-- Scanner `Parser::read_until_crlf` (src/resp/parser.rs lines 82-89): the
prefix before the first adjacent CR LF pair, together with the number
of bytes up to and including that pair. -/
def readUntilCrlf : Str → Option (Str × Nat)
  | a :: b :: rest =>
    if a = CARRIAGE_RETURN ∧ b = NEWLINE then some ([], 2)
    else
      match readUntilCrlf (b :: rest) with
      | some (line, len) => some (a :: line, len + 1)
      | none => none
  | _ => none

/-- Model of `Parser::parse_string` (src/resp/parser.rs lines 91-93):
`String::from_utf8` keeps the bytes when they are valid UTF-8. -/
def parseString (bytes : Str) : Except String Str :=
  if utf8Valid bytes then .ok bytes else .error "Could not parse string"

/-- Model of `Parser::parse_integer` (src/resp/parser.rs lines 95-98). -/
def parseInt64 (bytes : Str) : Except String Int :=
  match parseString bytes with
  | .error e => .error e
  | .ok s =>
    match i64FromBytes s with
    | some v => .ok v
    | none => .error "Could not parse integer"

/-- Model of `Parser::decode_simple_string` (src/resp/parser.rs lines 22-28). -/
def decodeSimpleString (buffer : Str) : Except String (Value × Nat) :=
  match readUntilCrlf (buffer.drop 1) with
  | some (line, len) =>
    match parseString line with
    | .ok s => .ok (.SimpleString s, len + 1)
    | .error e => .error e
  | none => .error "Error in decoding simple string"

/-- Model of `Parser::decode_integer` (src/resp/parser.rs lines 30-36). -/
def decodeInteger (buffer : Str) : Except String (Value × Nat) :=
  match readUntilCrlf (buffer.drop 1) with
  | some (line, len) =>
    match parseString line with
    | .ok s => .ok (.Integer s, len + 1)
    | .error e => .error e
  | none => .error "Error in decoding simple string"

/-- Model of `Parser::decode_bulk_string` (src/resp/parser.rs lines 62-80).
The two `usize` additions wrap modulo `2^64` (release-build
semantics); the slice `&buffer[bytes_consumed..end_of_bulk]` panics
(`none`) unless `bytes_consumed ≤ end_of_bulk ≤ buffer.len()`. -/
def decodeBulkString (buffer : Str) : Option (Except String (Value × Nat)) :=
  match readUntilCrlf (buffer.drop 1) with
  | none => some (.error "Error in decoding simple array")
  | some (line, len) =>
    match parseInt64 line with
    | .error e => some (.error e)
    | .ok bulkLength =>
      let bytesConsumed := len + 1
      let endOfBulk := (bytesConsumed + i64ToUsize bulkLength) % 2 ^ 64
      let endOfBulkLine := (endOfBulk + 2) % 2 ^ 64
      if endOfBulkLine ≤ buffer.length then
        if bytesConsumed ≤ endOfBulk ∧ endOfBulk ≤ buffer.length then
          match parseString ((buffer.take endOfBulk).drop bytesConsumed) with
          | .ok s => some (.ok (.BulkString s, endOfBulkLine))
          | .error e => some (.error e)
        else none
      else some (.error "Error in decoding simple array")

mutual

/-- Model of `Parser::parse_message` (src/resp/parser.rs lines 12-20).
Indexing `buffer[0]` on an empty buffer is an index panic (`none`). -/
def parseMessage : Str → Option (Except String (Value × Nat))
  | [] => none
  | b :: bs =>
    if b = 43 then some (decodeSimpleString (b :: bs))
    else if b = 58 then some (decodeInteger (b :: bs))
    else if b = 42 then
      -- `Parser::decode_array` (src/resp/parser.rs lines 38-60),
      -- inlined at its single call site.
      match readUntilCrlf bs with
      | none => some (.error "Error in decoding simple array")
      | some (line, len) =>
        match parseInt64 line with
        | .error e => some (.error e)
        | .ok arrayLength =>
          match parseItems arrayLength.toNat ((b :: bs).drop (len + 1)) with
          | none => none
          | some (.error e) => some (.error e)
          | some (.ok (items, consumed)) => some (.ok (.Arr items, len + 1 + consumed))
    else if b = 36 then decodeBulkString (b :: bs)
    else some (.error "unrecognised message type")
termination_by buffer => (buffer.length, 0)
decreasing_by
  apply Prod.Lex.left
  simp
  omega

/-- The `for _ in 0..array_length` item loop of `Parser::decode_array`
(src/resp/parser.rs lines 47-58): parse `n` further messages from
successive suffixes, summing the consumed byte counts.  Any item
error is collapsed to `"Error in decoding simple array"`. -/
def parseItems : Nat → Str → Option (Except String (List Value × Nat))
  | 0, _ => some (.ok ([], 0))
  | n + 1, buffer =>
    match parseMessage buffer with
    | none => none
    | some (.error _) => some (.error "Error in decoding simple array")
    | some (.ok (v, len)) =>
      match parseItems n (buffer.drop len) with
      | none => none
      | some (.error e) => some (.error e)
      | some (.ok (vs, consumed)) => some (.ok (v :: vs, len + consumed))
termination_by n buffer => (buffer.length, buffer.length + n)
decreasing_by
  · apply Prod.Lex.right
    omega
  · simp only [List.length_drop]
    rcases Nat.lt_or_ge len 1 with h | h
    · interval_cases len
      simpa using Prod.Lex.right (List.length buffer) (by omega)
    · rcases Nat.lt_or_ge (List.length buffer) 1 with h2 | h2
      · interval_cases hb : List.length buffer
        · simpa [hb] using Prod.Lex.right 0 (by omega)
      · exact Prod.Lex.left _ _ (by omega)

end

/-! ## Expiry and entries (src/cache/expiry.rs, src/cache/entry.rs)

An `Instant` is a `Nat` of milliseconds on the monotonic clock; the
current instant `now` is passed explicitly.  An `Expiry` is its
`instant: Option<Instant>` field.  `Instant::checked_add` overflow is
not modelled (the `Instant` range is platform-defined and no claim
touches it). -/

/-- ASCII bytes of a Lean string literal, for the fixed message and
command texts of the source. -/
def asciiBytes (s : String) : Str := s.data.map Char.toNat

/-- Model of `Expiry::is_expired` (src/cache/expiry.rs lines 29-33):
false with no instant, otherwise true iff the instant is strictly
before `now`. -/
def isExpired (now : Nat) : Option Nat → Bool
  | none => false
  | some t => t < now

/-- Model of `Expiry::remaining` (src/cache/expiry.rs lines 36-39):
`saturating_duration_since` clamps at zero. -/
def remaining (now : Nat) : Option Nat → Option Nat
  | none => none
  | some t => some (t - now)

/-- The `enum ExpiryFormat` (src/cache/expiry.rs lines 78-82). -/
inductive ExpiryFormat : Type
  | EX : ExpiryFormat
  | PX : ExpiryFormat
  | Uninitialized : ExpiryFormat
deriving DecidableEq

/-- Conversion `impl From<&str> for ExpiryFormat` (src/cache/expiry.rs
lines 84-92): only the exact strings `"ex"` and `"px"` are recognized. -/
def expiryFormatFromBytes (s : Str) : ExpiryFormat :=
  if s = asciiBytes "ex" then .EX
  else if s = asciiBytes "px" then .PX
  else .Uninitialized

/-- Model of `str::to_ascii_lowercase`. -/
def toAsciiLowercase (s : Str) : Str :=
  s.map (fun b => if 65 ≤ b ∧ b ≤ 90 then b + 32 else b)

/-- Conversion `impl From<u64> for Expiry` (src/cache/expiry.rs lines
50-54): a millisecond count becomes a deadline `now + millis`. -/
def expiryFromMillis (now amount : Nat) : Option Nat :=
  some (now + amount)

/-- Conversion `impl From<(u64, &String)> for Expiry`
(src/cache/expiry.rs lines 57-68): the format tag is lowercased, then
`PX` means milliseconds, `EX` seconds, and anything else yields the
never-expires variant. -/
def expiryFromPair (now : Nat) (amount : Nat) (format : Str) : Option Nat :=
  match expiryFormatFromBytes (toAsciiLowercase format) with
  | .PX => some (now + amount)
  | .EX => some (now + amount * 1000)
  | .Uninitialized => none

/-- The `struct Entry` (src/cache/entry.rs lines 4-7). -/
structure Entry : Type where
  value : Str
  expiration : Option Nat
deriving DecidableEq

/-! ## The cache store (src/cache/mod.rs)

The `RwLock<BTreeMap<String, Entry>>` is modelled as an association
list in the map's iteration order; its keys are distinct (a `BTreeMap`
invariant, taken as a hypothesis where a theorem needs it).  Methods
run atomically in this single-threaded embedding; each returns its
result together with the store left behind. -/

/-- Cache store: key/entry pairs in iteration order. -/
abbrev Store := List (Str × Entry)

/-- Model of `BTreeMap::get`. -/
def lookupKey : Store → Str → Option Entry
  | [], _ => none
  | (k', e) :: t, k => if k' = k then some e else lookupKey t k

/-- Model of `BTreeMap::remove` (the key, if present, is removed; the
order of the other entries is kept). -/
def eraseKey : Store → Str → Store
  | [], _ => []
  | (k', e) :: t, k => if k' = k then t else (k', e) :: eraseKey t k

/-- Model of `BTreeMap::insert`: replace in place when the key is
present, otherwise add the binding.  (An absent key is appended; the
sorted position a `BTreeMap` would give it is irrelevant to the
claims proved here, which never combine insertion order with
iteration order.) -/
def insertKey : Store → Str → Entry → Store
  | [], k, e => [(k, e)]
  | (k', e') :: t, k, e => if k' = k then (k, e) :: t else (k', e') :: insertKey t k e

/-- Model of `BTreeMap::contains_key`. -/
def containsKey (store : Store) (k : Str) : Bool :=
  (lookupKey store k).isSome

/-- Model of `Cache::set` (src/cache/mod.rs lines 38-46): insert with
`Expiry::none()`. -/
def cacheSet (store : Store) (key value : Str) : Store :=
  insertKey store key ⟨value, none⟩

/-- Model of `Cache::set_with_expiry` (src/cache/mod.rs lines 48-58),
with the expiry already converted to its `Option` instant. -/
def cacheSetWithExpiry (store : Store) (key value : Str) (e : Option Nat) : Store :=
  insertKey store key ⟨value, e⟩

/-- Model of `Cache::get` (src/cache/mod.rs lines 60-78): absent keys
give `none`; a present, unexpired entry gives a clone of its value; a
present, expired entry is removed under the write guard and `none` is
returned. -/
def cacheGet (now : Nat) (store : Store) (key : Str) : Option Str × Store :=
  match lookupKey store key with
  | some entry =>
    if !isExpired now entry.expiration then (some entry.value, store)
    else (none, eraseKey store key)
  | none => (none, store)

/-- Message of the `anyhow` error raised by `Cache::remove` on an
absent key (src/cache/mod.rs line 89).  The `{:?}` rendering of the
key is modelled as plain double quotes around its bytes; the escaping
of special characters inside the key is not modelled (no claim
depends on this text). -/
def removeErrMsg (key : Str) : Str :=
  asciiBytes "Error in removing entry with key " ++ [34] ++ key ++ [34]

/-- Model of `Cache::remove` (src/cache/mod.rs lines 80-92): a present
key is removed with success, an absent key leaves the store unchanged
and fails. -/
def cacheRemove (store : Store) (key : Str) : Except Str Unit × Store :=
  match lookupKey store key with
  | some _ => (.ok (), eraseKey store key)
  | none => (.error (removeErrMsg key), store)

/-- Model of `Cache::exists` (src/cache/mod.rs lines 94-97):
`contains_key` under the (write) guard, with no look at expirations. -/
def cacheExists (store : Store) (key : Str) : Bool :=
  containsKey store key

/-! ## The purge loop (src/cache/mod.rs lines 111-208)

The `rand::thread_rng()` index sampling (lines 137-143) fills a
`BTreeSet<usize>` with `gen_range(0..total)` draws until it holds
`sample` elements, so the walked index list is strictly ascending,
below `total`, of length `min sample total`; a purge theorem takes
the drawn lists from an oracle constrained exactly this way.  The
walk over `store.iter()` (lines 145-179) is `purgeWalk`; the boxed
iterator is the remaining suffix of the store list, `skip` is
`List.drop`, and the `iter.next().unwrap()` of line 166 panics
(`none`) when the iterator is exhausted. -/

/-- Model of the index walk of `Cache::purge` (src/cache/mod.rs lines
145-179): for each index, shift the iterator by
`idx.checked_sub(prev).and_then(|i| i.checked_sub(1)).unwrap_or(0)`
(truncated subtraction `idx - prev - 1`), take the next pair, and
record its key iff its expiration is expired.  Returns the recorded
keys in walk order, or `none` if `next().unwrap()` panics. -/
def purgeWalk (now : Nat) : List Nat → Nat → Store → Option (List Str)
  | [], _, _ => some []
  | idx :: rest, prev, iter =>
    let offset := idx - prev - 1
    match iter.drop offset with
    | [] => none
    | (key, entry) :: iterRest =>
      match purgeWalk now rest idx iterRest with
      | none => none
      | some keys =>
        some (if isExpired now entry.expiration then key :: keys else keys)

/-- Removal phase of one purge pass (src/cache/mod.rs lines 181-197):
remove every recorded key under the write guard. -/
def purgeRemove (store : Store) (expiredKeys : List Str) : Store :=
  expiredKeys.foldl (fun st key => eraseKey st key) store

/-- Model of the `loop` of `Cache::purge` (src/cache/mod.rs lines
121-206).  `S` is `self.sample`, `θ` is `self.threshold` (an exact
rational standing for the `f64`; the break comparison
`(gone as f64) < (sample as f64 * threshold)` is taken in `ℚ`),
`oracle k N` is the sorted distinct index set drawn by pass `k` over a
map of size `N`, and `fuel` bounds the number of passes so that the
recursion is well defined — the termination theorem shows that
`store.length + 1` passes always suffice.  `none` means the fuel ran
out or the walk panicked. -/
def purgeLoop (S : Nat) (θ : ℚ) (now : Nat) (oracle : Nat → Nat → List Nat) :
    Nat → Nat → Store → Option Store
  | _, 0, _ => none
  | k, fuel + 1, store =>
    if store.isEmpty then some store
    else
      let total := store.length
      let sample := min S total
      match purgeWalk now (oracle k total) 0 store with
      | none => none
      | some expiredKeys =>
        let gone := expiredKeys.length
        let store2 := purgeRemove store expiredKeys
        if (gone : ℚ) < (sample : ℚ) * θ then some store2
        else purgeLoop S θ now oracle (k + 1) fuel store2

/-! ## The request handlers (src/server/handler.rs)

Each handler is a pure function of the decoded argument values and
the current store, returning the reply `Value` and the store left
behind. -/

/-- Model of `Handler::handle_set_with_expiry` (src/server/handler.rs
lines 129-152): parse the amount as `u64`; on success delegate to the
cache with the `(amount, format)` expiry form when a format string
was passed through, and with the raw-millisecond form otherwise; on
failure reply an error and leave the cache untouched. -/
def handleSetWithExpiry (now : Nat) (key value amount : Str)
    (expiryFormat : Option Str) (store : Store) : Value × Store :=
  match u64FromBytes amount with
  | some a =>
    let e : Option Nat :=
      match expiryFormat with
      | some f => expiryFromPair now a f
      | none => expiryFromMillis now a
    (.SimpleString (asciiBytes "OK"), cacheSetWithExpiry store key value e)
  | none => (.Err (asciiBytes "Unsupported expiry format"), store)

/-- Model of `Handler::handle_set` (src/server/handler.rs lines
107-127).  Note: the format tag is tested with
`ExpiryFormat::from(expiry_format.as_str())` — without lowercasing —
so only the exact strings `"ex"` and `"px"` select the
format-carrying branch. -/
def handleSet (now : Nat) (args : List Value) (store : Store) : Value × Store :=
  match args.get? 0, args.get? 1 with
  | some (.BulkString key), some (.BulkString value) =>
    match args.get? 2, args.get? 3 with
    | some (.BulkString expiryFormat), some (.BulkString amount) =>
      if expiryFormatFromBytes expiryFormat ≠ .Uninitialized then
        handleSetWithExpiry now key value amount (some expiryFormat) store
      else
        handleSetWithExpiry now key value amount none store
    | _, _ =>
      (.SimpleString (asciiBytes "OK"), cacheSet store key value)
  | _, _ => (.Err (asciiBytes "SET requires two or four arguments"), store)

/-- Model of `Handler::handle_delete` (src/server/handler.rs lines
154-163). -/
def handleDelete (args : List Value) (store : Store) : Value × Store :=
  match args.get? 0 with
  | some (.BulkString key) =>
    match cacheRemove store key with
    | (.ok _, store2) => (.SimpleString (asciiBytes "OK"), store2)
    | (.error e, store2) => (.Err (asciiBytes "Error while deleting: " ++ e), store2)
  | _ => (.Err (asciiBytes "DEL requires one argument"), store)

/-- Model of `Handler::handle_exists` (src/server/handler.rs lines
165-174). -/
def handleExists (args : List Value) (store : Store) : Value :=
  match args.get? 0 with
  | some (.BulkString key) =>
    if cacheExists store key then .SimpleString (asciiBytes "true")
    else .SimpleString (asciiBytes "false")
  | _ => .Err (asciiBytes "EXISTS requires one argument")

/-! ## Store lemmas -/

theorem lookupKey_eq_none_iff (store : Store) (k : Str) :
    lookupKey store k = none ↔ k ∉ store.map Prod.fst := by
  induction store with
  | nil => simp [lookupKey]
  | cons p t ih =>
    obtain ⟨k', e⟩ := p
    by_cases h : k' = k
    · subst h
      simp [lookupKey]
    · simp [lookupKey, h, ih, Ne.symm h]

theorem lookupKey_eraseKey_self (store : Store) (k : Str)
    (hnodup : (store.map Prod.fst).Nodup) :
    lookupKey (eraseKey store k) k = none := by
  induction store with
  | nil => simp [eraseKey, lookupKey]
  | cons p t ih =>
    obtain ⟨k', e⟩ := p
    simp only [List.map_cons, List.nodup_cons] at hnodup
    by_cases h : k' = k
    · subst h
      simpa [eraseKey, lookupKey_eq_none_iff] using hnodup.1
    · simp [eraseKey, h, lookupKey, ih hnodup.2]

theorem lookupKey_insertKey_self (store : Store) (k : Str) (e : Entry) :
    lookupKey (insertKey store k e) k = some e := by
  induction store with
  | nil => simp [insertKey, lookupKey]
  | cons p t ih =>
    obtain ⟨k', e'⟩ := p
    by_cases h : k' = k
    · simp [insertKey, h, lookupKey]
    · simp [insertKey, h, lookupKey, ih]

theorem eraseKey_length_le (store : Store) (k : Str) :
    (eraseKey store k).length ≤ store.length := by
  induction store with
  | nil => simp [eraseKey]
  | cons p t ih =>
    obtain ⟨k', e⟩ := p
    by_cases h : k' = k
    · simp only [eraseKey, h, if_true, List.length_cons, if_pos]
      omega
    · simp only [eraseKey, h, if_false, List.length_cons]
      omega

theorem eraseKey_length_lt (store : Store) (k : Str)
    (hpresent : (lookupKey store k).isSome = true) :
    (eraseKey store k).length < store.length := by
  induction store with
  | nil => simp [lookupKey] at hpresent
  | cons p t ih =>
    obtain ⟨k', e⟩ := p
    by_cases h : k' = k
    · simp [eraseKey, h]
    · simp only [lookupKey, h, if_false] at hpresent
      simp only [eraseKey, h, if_false, List.length_cons]
      exact Nat.succ_lt_succ (ih hpresent)

/-! ## Claims C5, C6, C7 -/

/-- C5: for every key `k`, `GET(k)` returns none when `k` is absent;
returns a clone of the stored value when `k` is present and its
expiry says not-expired; and when `k` is present but expired, removes
`k` from the map and returns none, so the expired entry is gone
before absence is reported (lazy expiration). -/
theorem c5_get_lazy_expiration (now : Nat) (store : Store) (key : Str)
    (hnodup : (store.map Prod.fst).Nodup) :
    (lookupKey store key = none → cacheGet now store key = (none, store)) ∧
    (∀ e, lookupKey store key = some e → isExpired now e.expiration = false →
      cacheGet now store key = (some e.value, store)) ∧
    (∀ e, lookupKey store key = some e → isExpired now e.expiration = true →
      cacheGet now store key = (none, eraseKey store key) ∧
      lookupKey (eraseKey store key) key = none) := by
  refine ⟨fun h => ?_, fun e h hexp => ?_, fun e h hexp => ?_⟩
  · simp [cacheGet, h]
  · simp [cacheGet, h, hexp]
  · exact ⟨by simp [cacheGet, h, hexp], lookupKey_eraseKey_self store key hnodup⟩

/-- Witness for C5: on the store holding only key `"a"` with an
already-expired entry, `GET "a"` removes the entry and reports
absence. -/
theorem c5_get_lazy_expiration_witness :
    cacheGet 5 [([97], ⟨[118], some 1⟩)] [97] =
      (none, eraseKey [([97], ⟨[118], some 1⟩)] [97]) ∧
    lookupKey (eraseKey [([97], ⟨[118], some 1⟩)] [97]) [97] = none :=
  (c5_get_lazy_expiration 5 [([97], ⟨[118], some 1⟩)] [97] (by decide)).2.2
    ⟨[118], some 1⟩ (by decide) (by decide)

/-- C6: `DEL(k)` on a cache where `k` is present removes `k` and
returns success (the handler replies SimpleString "OK"); `DEL(k)`
when `k` is absent returns an error (the handler replies an Error
frame) and leaves the cache map unchanged. -/
theorem c6_del_present_or_absent (store : Store) (key : Str)
    (hnodup : (store.map Prod.fst).Nodup) :
    (∀ e, lookupKey store key = some e →
      cacheRemove store key = (.ok (), eraseKey store key) ∧
      handleDelete [.BulkString key] store =
        (.SimpleString (asciiBytes "OK"), eraseKey store key) ∧
      lookupKey (eraseKey store key) key = none) ∧
    (lookupKey store key = none →
      cacheRemove store key = (.error (removeErrMsg key), store) ∧
      handleDelete [.BulkString key] store =
        (.Err (asciiBytes "Error while deleting: " ++ removeErrMsg key), store)) := by
  constructor
  · intro e h
    refine ⟨by simp [cacheRemove, h], by simp [handleDelete, cacheRemove, h], ?_⟩
    exact lookupKey_eraseKey_self store key hnodup
  · intro h
    exact ⟨by simp [cacheRemove, h], by simp [handleDelete, cacheRemove, h]⟩

/-- Witness for C6: deleting the present key `"a"` removes it and
replies "OK"; deleting the absent key `"b"` replies an Error frame
and leaves the singleton store unchanged. -/
theorem c6_del_present_or_absent_witness :
    (cacheRemove [([97], ⟨[118], none⟩)] [97] =
      (.ok (), eraseKey [([97], ⟨[118], none⟩)] [97]) ∧
     handleDelete [.BulkString [97]] [([97], ⟨[118], none⟩)] =
      (.SimpleString (asciiBytes "OK"), eraseKey [([97], ⟨[118], none⟩)] [97]) ∧
     lookupKey (eraseKey [([97], ⟨[118], none⟩)] [97]) [97] = none) ∧
    (cacheRemove [([97], ⟨[118], none⟩)] [98] =
      (.error (removeErrMsg [98]), [([97], ⟨[118], none⟩)]) ∧
     handleDelete [.BulkString [98]] [([97], ⟨[118], none⟩)] =
      (.Err (asciiBytes "Error while deleting: " ++ removeErrMsg [98]),
        [([97], ⟨[118], none⟩)])) :=
  ⟨(c6_del_present_or_absent [([97], ⟨[118], none⟩)] [97] (by decide)).1
      ⟨[118], none⟩ (by decide),
   (c6_del_present_or_absent [([97], ⟨[118], none⟩)] [98] (by decide)).2 (by decide)⟩

/-- C7: `EXISTS(k)` returns true iff `k` is currently present in the
map, without regard to expiration (note `cacheExists` takes no clock
at all): it is true for a just-SET key whatever that key's expiry,
false for a never-SET key, and the handler renders the result as
SimpleString "true" or "false". -/
theorem c7_exists_ignores_expiry (store : Store) (key : Str) :
    (∀ value exp, handleExists [.BulkString key] (insertKey store key ⟨value, exp⟩) =
      .SimpleString (asciiBytes "true")) ∧
    (lookupKey store key = none →
      handleExists [.BulkString key] store = .SimpleString (asciiBytes "false")) ∧
    (cacheExists store key = true ↔ ∃ e, lookupKey store key = some e) := by
  refine ⟨fun value exp => ?_, fun h => ?_, ?_⟩
  · simp [handleExists, cacheExists, containsKey, lookupKey_insertKey_self]
  · simp [handleExists, cacheExists, containsKey, h]
  · simp [cacheExists, containsKey, Option.isSome_iff_exists]

/-- Witness for C7: key `"k"` set with a deadline already in the past
still EXISTS as "true"; the never-set key `"k"` in the empty store is
"false". -/
theorem c7_exists_ignores_expiry_witness :
    handleExists [.BulkString [107]] (insertKey [] [107] ⟨[118], some 0⟩) =
      .SimpleString (asciiBytes "true") ∧
    handleExists [.BulkString [107]] [] = .SimpleString (asciiBytes "false") :=
  ⟨(c7_exists_ignores_expiry [] [107]).1 [118] (some 0),
   (c7_exists_ignores_expiry [] [107]).2.1 (by decide)⟩

/-! ## Purge walk lemmas -/

theorem purgeWalk_isSome_aux (now : Nat) :
    ∀ (idxs : List Nat) (prev : Nat) (iter : Store),
      idxs.Pairwise (· < ·) →
      (∀ i ∈ idxs, prev < i ∧ i - prev ≤ iter.length) →
      (purgeWalk now idxs prev iter).isSome = true := by
  intro idxs
  induction idxs with
  | nil => intro prev iter _ _; simp [purgeWalk]
  | cons idx rest ih =>
    intro prev iter hpw hbound
    obtain ⟨hprev, hlen⟩ := hbound idx (by simp)
    have hoff : idx - prev - 1 < iter.length := by omega
    simp only [purgeWalk]
    split
    · next hdrop =>
      exfalso
      have := List.length_drop (idx - prev - 1) iter
      rw [hdrop] at this
      simp at this
      omega
    · next key entry iterRest hdrop =>
      have hrest : (purgeWalk now rest idx iterRest).isSome = true := by
        apply ih idx iterRest (List.Pairwise.sublist (List.sublist_cons_self idx rest) hpw)
        intro i hi
        have hlt : idx < i := (List.pairwise_cons.mp hpw).1 i hi
        have hib := hbound i (by simp [hi])
        have hlen' : iterRest.length = iter.length - (idx - prev - 1) - 1 := by
          have := List.length_drop (idx - prev - 1) iter
          rw [hdrop] at this
          simp at this
          omega
        refine ⟨hlt, ?_⟩
        omega
      split
      · next hrec => rw [hrec] at hrest; simp at hrest
      · next keys hrec => simp

/-- Keys recorded by the walk name entries of the walked iterator. -/
theorem purgeWalk_keys_mem (now : Nat) :
    ∀ (idxs : List Nat) (prev : Nat) (iter : Store) (keys : List Str),
      purgeWalk now idxs prev iter = some keys →
      ∀ k ∈ keys, ∃ e, (k, e) ∈ iter := by
  intro idxs
  induction idxs with
  | nil =>
    intro prev iter keys h k hk
    simp [purgeWalk] at h
    subst h
    simp at hk
  | cons idx rest ih =>
    intro prev iter keys h k hk
    simp only [purgeWalk] at h
    split at h
    · exact absurd h (by simp)
    · next key entry iterRest hdrop =>
      split at h
      · exact absurd h (by simp)
      · next keys' hrec =>
        simp only [Option.some_inj] at h
        have hmemhead : (key, entry) ∈ iter := by
          have hmem : (key, entry) ∈ iter.drop (idx - prev - 1) := by
            rw [hdrop]; simp
          exact List.mem_of_mem_drop hmem
        have hmemrest : ∀ k' ∈ keys', ∃ e, (k', e) ∈ iter := by
          intro k' hk'
          obtain ⟨e, he⟩ := ih idx iterRest keys' hrec k' hk'
          have hmem : (k', e) ∈ iter.drop (idx - prev - 1) := by
            rw [hdrop]; simp [he]
          exact ⟨e, List.mem_of_mem_drop hmem⟩
        by_cases hexp : isExpired now entry.expiration
        · rw [if_pos hexp] at h
          subst h
          rcases List.mem_cons.mp hk with hkk | hkk
          · subst hkk; exact ⟨entry, hmemhead⟩
          · exact hmemrest k hkk
        · rw [if_neg hexp] at h
          subst h
          exact hmemrest k hk

theorem lookupKey_isSome_of_mem (store : Store) (k : Str) (e : Entry)
    (h : (k, e) ∈ store) : (lookupKey store k).isSome = true := by
  induction store with
  | nil => simp at h
  | cons p t ih =>
    obtain ⟨k', e'⟩ := p
    rcases List.mem_cons.mp h with h1 | h1
    · have h2 : k' = k := ((Prod.ext_iff.mp h1).1).symm
      simp [lookupKey, h2]
    · by_cases hk : k' = k
      · simp [lookupKey, hk]
      · simp only [lookupKey, hk, if_false]
        exact ih h1

theorem purgeRemove_length_le (keys : List Str) :
    ∀ store : Store, (purgeRemove store keys).length ≤ store.length := by
  induction keys with
  | nil => intro store; simp [purgeRemove]
  | cons k rest ih =>
    intro store
    have h1 : purgeRemove store (k :: rest) = purgeRemove (eraseKey store k) rest := rfl
    rw [h1]
    exact le_trans (ih (eraseKey store k)) (eraseKey_length_le store k)

theorem purgeRemove_length_lt (store : Store) (k : Str) (rest : List Str)
    (hpresent : (lookupKey store k).isSome = true) :
    (purgeRemove store (k :: rest)).length < store.length := by
  have h1 : purgeRemove store (k :: rest) = purgeRemove (eraseKey store k) rest := rfl
  rw [h1]
  exact lt_of_le_of_lt (purgeRemove_length_le rest (eraseKey store k))
    (eraseKey_length_lt store k hpresent)

/-- Walks whose index list is strictly ascending and bounded by the
store size never exhaust the iterator. -/
theorem purgeWalk_sorted_isSome (now : Nat) (idxs : List Nat) (store : Store)
    (hpw : idxs.Pairwise (· < ·)) (hlt : ∀ i ∈ idxs, i < store.length) :
    (purgeWalk now idxs 0 store).isSome = true := by
  cases idxs with
  | nil => simp [purgeWalk]
  | cons idx rest =>
    by_cases h0 : idx = 0
    · subst h0
      have hlen : 0 < store.length := hlt 0 (by simp)
      simp only [purgeWalk]
      split
      · next hdrop =>
        exfalso
        have hd := List.length_drop (0 - 0 - 1) store
        rw [hdrop] at hd
        simp at hd
        omega
      · next key entry iterRest hdrop =>
        have hlen2 : iterRest.length = store.length - 1 := by
          have hd := List.length_drop (0 - 0 - 1) store
          rw [hdrop] at hd
          simp at hd
          omega
        have hrest : (purgeWalk now rest 0 iterRest).isSome = true := by
          apply purgeWalk_isSome_aux now rest 0 iterRest
            (List.Pairwise.sublist (List.sublist_cons_self 0 rest) hpw)
          intro i hi
          have hlt0 : 0 < i := (List.pairwise_cons.mp hpw).1 i hi
          have hib := hlt i (by simp [hi])
          exact ⟨hlt0, by omega⟩
        split
        · next hrec => rw [hrec] at hrest; simp at hrest
        · next keys hrec => simp
    · apply purgeWalk_isSome_aux now (idx :: rest) 0 store hpw
      intro i hi
      rcases List.mem_cons.mp hi with h1 | h1
      · subst h1
        exact ⟨by omega, by have := hlt i hi; omega⟩
      · have hlt0 : idx < i := (List.pairwise_cons.mp hpw).1 i h1
        exact ⟨by omega, by have := hlt i hi; omega⟩

/-! ## Claims C1, C2, C10 -/

/-- C1 (evidence of the code bug): with a two-entry map and the single
drawn index 1, the walk of `Cache::purge` inspects the entry at
position 0 — here the expired key `"a"` — and records it; the entry
actually at index 1 (`"b"`, never expiring) is never inspected, so
the removal list predicted by the claim would be empty.  With `prev`
initialized to 0 and the offset `idx - prev - 1`, the walk is off by
one whenever the smallest drawn index is nonzero, contradicting both
the claim and the code's own comment "fetch the next pair (at our
index)". -/
theorem c1_walk_inspects_shifted_index :
    purgeWalk 100 [1] 0 [([97], ⟨[118], some 0⟩), ([98], ⟨[119], none⟩)] =
      some [[97]] := by decide

/-- C2: for sample size `S ≥ 1` and threshold `θ ∈ (0,1]`, a purge
call terminates: on the empty cache it is a no-op, and otherwise
`store.length + 1` passes always reach a `break` — each pass that
continues the loop has `gone ≥ sample·θ > 0` recorded keys and so
strictly shrinks the finite map.  The oracle hypothesis states
exactly what the `BTreeSet` sampling loop guarantees: a strictly
ascending list of indices below the current map size. -/
theorem c2_purge_terminates (S : Nat) (θ : ℚ) (now : Nat)
    (oracle : Nat → Nat → List Nat)
    (hS : 1 ≤ S) (hθpos : 0 < θ) (_hθle : θ ≤ 1)
    (horacle : ∀ k N, 0 < N →
      (oracle k N).Pairwise (· < ·) ∧ ∀ i ∈ oracle k N, i < N) :
    (∀ k fuel, purgeLoop S θ now oracle k (fuel + 1) [] = some []) ∧
    (∀ store k, (purgeLoop S θ now oracle k (store.length + 1) store).isSome = true) := by
  constructor
  · intro k fuel
    simp [purgeLoop]
  · have main : ∀ fuel store k, store.length < fuel →
        (purgeLoop S θ now oracle k fuel store).isSome = true := by
      intro fuel
      induction fuel with
      | zero => intro store k h; omega
      | succ fuel ih =>
        intro store k hlen
        by_cases hempty : store.isEmpty
        · simp [purgeLoop, hempty]
        · have hpos : 0 < store.length := by
            cases store with
            | nil => simp at hempty
            | cons p t => simp
          obtain ⟨hpw, hbound⟩ := horacle k store.length hpos
          have hwalk := purgeWalk_sorted_isSome now (oracle k store.length) store hpw hbound
          obtain ⟨keys, hkeys⟩ := Option.isSome_iff_exists.mp hwalk
          simp only [purgeLoop, hempty, Bool.false_eq_true, if_false, hkeys]
          by_cases hbreak :
              ((keys.length : ℚ) < ((min S store.length : Nat) : ℚ) * θ)
          · rw [if_pos hbreak]
            simp
          · rw [if_neg hbreak]
            cases keys with
            | nil =>
              exfalso
              apply hbreak
              simp only [List.length_nil, Nat.cast_zero]
              apply mul_pos
              · have : 1 ≤ min S store.length := by omega
                exact_mod_cast Nat.lt_of_lt_of_le Nat.zero_lt_one this
              · exact hθpos
            | cons k0 krest =>
              have hk0 : ∃ e, (k0, e) ∈ store :=
                purgeWalk_keys_mem now (oracle k store.length) 0 store
                  (k0 :: krest) hkeys k0 (by simp)
              obtain ⟨e0, he0⟩ := hk0
              have hlt2 : (purgeRemove store (k0 :: krest)).length < store.length :=
                purgeRemove_length_lt store k0 krest
                  (lookupKey_isSome_of_mem store k0 e0 he0)
              exact ih (purgeRemove store (k0 :: krest)) (k + 1) (by omega)
    intro store k
    exact main (store.length + 1) store k (by omega)

/-- Witness for C2: with `S = 1`, `θ = 1/2`, a constant oracle drawing
index 0, and a singleton store holding an expired entry, a purge call
with `length + 1` passes of fuel terminates, and the empty cache is a
terminating no-op. -/
theorem c2_purge_terminates_witness :
    purgeLoop 1 (1 / 2) 5 (fun _ _ => [0]) 0 1 [] = some [] ∧
    (purgeLoop 1 (1 / 2) 5 (fun _ _ => [0]) 0
      (([([97], ⟨[118], some 1⟩)] : Store).length + 1)
      [([97], ⟨[118], some 1⟩)]).isSome = true := by
  have h := c2_purge_terminates 1 (1 / 2) 5 (fun _ _ => [0]) (by norm_num)
    (by norm_num) (by norm_num)
    (fun k N hN => ⟨by simp, by intro i hi; simp at hi; omega⟩)
  exact ⟨h.1 0 0, h.2 [([97], ⟨[118], some 1⟩)] 0⟩

/-- C10: in every inner purge pass, the iterator-advance walk over a
strictly ascending list of in-range indices never observes an
exhausted iterator: the `unwrap` on `iter.next()` cannot panic. -/
theorem c10_walk_never_panics (now : Nat) (idxs : List Nat) (store : Store)
    (hpw : idxs.Pairwise (· < ·)) (hlt : ∀ i ∈ idxs, i < store.length) :
    (purgeWalk now idxs 0 store).isSome = true :=
  purgeWalk_sorted_isSome now idxs store hpw hlt

/-- Witness for C10: the walk over indices `[0, 2]` of a three-entry
store completes without panicking. -/
theorem c10_walk_never_panics_witness :
    (purgeWalk 7 [0, 2] 0
      [([97], ⟨[1], some 1⟩), ([98], ⟨[2], none⟩), ([99], ⟨[3], some 9⟩)]).isSome
      = true :=
  c10_walk_never_panics 7 [0, 2]
    [([97], ⟨[1], some 1⟩), ([98], ⟨[2], none⟩), ([99], ⟨[3], some 9⟩)]
    (by decide) (by decide)

/-! ## Claim C4 -/

/-- Counterexample to C4: `SET k v EX 1` with the uppercase tag `"EX"`
(bytes `[69, 88]`) parses case-insensitively to `EX`, and `"1"`
parses as a non-negative integer, so the claim says the handler
delegates with the `(amount, format)` expiry form — a one-second
deadline `some 1000`.  The handler's format test is case-sensitive,
so it actually delegates with the raw-milliseconds form and stores
the deadline `some 1`. -/
theorem c4_uppercase_ex_takes_raw_millis :
    handleSet 0
        [.BulkString [107], .BulkString [118], .BulkString [69, 88], .BulkString [49]]
        [] =
      (.SimpleString (asciiBytes "OK"), [([107], ⟨[118], some 1⟩)]) ∧
    expiryFromPair 0 1 [69, 88] = some 1000 ∧
    (handleSet 0
        [.BulkString [107], .BulkString [118], .BulkString [69, 88], .BulkString [49]]
        []).2 ≠ [([107], ⟨[118], expiryFromPair 0 1 [69, 88]⟩)] :=
  ⟨rfl, rfl, by decide⟩

/-- C4 as amended: for a SET with both format tag and amount, the
handler's branch test is case-sensitive — only the exact lowercase
tags `"ex"` and `"px"` select the `(amount, format)` expiry form (ex
meaning seconds, px milliseconds); every other tag, uppercase `"EX"`
and `"PX"` included, delegates with the raw-milliseconds form of the
amount; and when the amount fails to parse as a non-negative integer
the reply is Error "Unsupported expiry format" and the cache is not
mutated. -/
theorem c4_set_expiry_amended (now : Nat) (key value fmt amt : Str) (store : Store) :
    (∀ a, u64FromBytes amt = some a →
      (fmt = asciiBytes "ex" →
        handleSet now [.BulkString key, .BulkString value, .BulkString fmt, .BulkString amt]
            store =
          (.SimpleString (asciiBytes "OK"),
            insertKey store key ⟨value, some (now + a * 1000)⟩)) ∧
      (fmt = asciiBytes "px" →
        handleSet now [.BulkString key, .BulkString value, .BulkString fmt, .BulkString amt]
            store =
          (.SimpleString (asciiBytes "OK"),
            insertKey store key ⟨value, some (now + a)⟩)) ∧
      (expiryFormatFromBytes fmt = .Uninitialized →
        handleSet now [.BulkString key, .BulkString value, .BulkString fmt, .BulkString amt]
            store =
          (.SimpleString (asciiBytes "OK"),
            insertKey store key ⟨value, some (now + a)⟩))) ∧
    (u64FromBytes amt = none →
      handleSet now [.BulkString key, .BulkString value, .BulkString fmt, .BulkString amt]
          store =
        (.Err (asciiBytes "Unsupported expiry format"), store)) := by
  constructor
  · intro a ha
    refine ⟨fun hex => ?_, fun hpx => ?_, fun hun => ?_⟩
    · subst hex
      simp [handleSet, handleSetWithExpiry, ha, cacheSetWithExpiry,
        expiryFromPair, expiryFormatFromBytes, toAsciiLowercase, asciiBytes]
    · subst hpx
      simp [handleSet, handleSetWithExpiry, ha, cacheSetWithExpiry,
        expiryFromPair, expiryFormatFromBytes, toAsciiLowercase, asciiBytes]
    · simp [handleSet, hun, handleSetWithExpiry, ha, cacheSetWithExpiry,
        expiryFromMillis]
  · intro ha
    by_cases hfmt : expiryFormatFromBytes fmt = .Uninitialized
    · simp [handleSet, hfmt, handleSetWithExpiry, ha]
    · simp [handleSet, hfmt, handleSetWithExpiry, ha]

/-- Witness for C4 as amended: lowercase `"ex"` with amount 2 stores a
2000 ms deadline, lowercase `"px"` stores 2 ms, the unrecognized tag
`"xx"` stores the raw 2 ms, and the unparseable amount `"zz"` replies
the error and leaves the store unchanged. -/
theorem c4_set_expiry_amended_witness :
    handleSet 0 [.BulkString [107], .BulkString [118], .BulkString [101, 120],
        .BulkString [50]] [] =
      (.SimpleString (asciiBytes "OK"), insertKey [] [107] ⟨[118], some 2000⟩) ∧
    handleSet 0 [.BulkString [107], .BulkString [118], .BulkString [112, 120],
        .BulkString [50]] [] =
      (.SimpleString (asciiBytes "OK"), insertKey [] [107] ⟨[118], some 2⟩) ∧
    handleSet 0 [.BulkString [107], .BulkString [118], .BulkString [120, 120],
        .BulkString [50]] [] =
      (.SimpleString (asciiBytes "OK"), insertKey [] [107] ⟨[118], some 2⟩) ∧
    handleSet 0 [.BulkString [107], .BulkString [118], .BulkString [101, 120],
        .BulkString [122, 122]] [] =
      (.Err (asciiBytes "Unsupported expiry format"), []) :=
  ⟨((c4_set_expiry_amended 0 [107] [118] [101, 120] [50] []).1 2 (by decide)).1
      (by decide),
   (((c4_set_expiry_amended 0 [107] [118] [112, 120] [50] []).1 2 (by decide)).2.1
      (by decide)),
   (((c4_set_expiry_amended 0 [107] [118] [120, 120] [50] []).1 2 (by decide)).2.2
      (by decide)),
   (c4_set_expiry_amended 0 [107] [118] [101, 120] [122, 122] []).2 (by decide)⟩

/-! ## Codec lemmas -/

/-- Whether a byte sequence contains an adjacent CR LF pair — the
condition under which `read_until_crlf` stops early inside it. -/
def hasCRLF : Str → Bool
  | a :: b :: rest => (a = 13 && b = 10) || hasCRLF (b :: rest)
  | _ => false

theorem hasCRLF_eq_false_of_no_cr (s : Str) (h : ∀ b ∈ s, b ≠ 13) :
    hasCRLF s = false := by
  induction s with
  | nil => rfl
  | cons a t ih =>
    cases t with
    | nil => rfl
    | cons b t2 =>
      have ha : a ≠ 13 := h a (by simp)
      have ht : hasCRLF (b :: t2) = false := ih (fun x hx => h x (by simp [hx]))
      simp [hasCRLF, ha, ht]

theorem readUntilCrlf_append (s : Str) (tail : Str) (h : hasCRLF s = false) :
    readUntilCrlf (s ++ 13 :: 10 :: tail) = some (s, s.length + 2) := by
  induction s with
  | nil => simp [readUntilCrlf, CARRIAGE_RETURN, NEWLINE]
  | cons a t ih =>
    cases t with
    | nil =>
      simp [readUntilCrlf, CARRIAGE_RETURN, NEWLINE]
    | cons b t2 =>
      simp only [hasCRLF, Bool.or_eq_false_iff, Bool.and_eq_false_iff] at h
      have hcond : ¬(a = CARRIAGE_RETURN ∧ b = NEWLINE) := by
        rcases h.1 with h1 | h1
        · exact fun hc => by simp [CARRIAGE_RETURN, hc.1] at h1
        · exact fun hc => by simp [NEWLINE, hc.2] at h1
      have ht : hasCRLF (b :: t2) = false := by
        cases t2 with
        | nil => rfl
        | cons c t3 => exact h.2
      have ihr := ih ht
      simp only [List.cons_append] at ihr ⊢
      rw [readUntilCrlf, if_neg hcond, ihr]
      simp

theorem utf8Valid_of_ascii (s : Str) (h : ∀ b ∈ s, b ≤ 127) : utf8Valid s = true := by
  induction s with
  | nil => rfl
  | cons b t ih =>
    have hb : b ≤ 127 := h b (by simp)
    have hstep : utf8Step 0 b = 0 := by simp [utf8Step, hb]
    have ht := ih (fun x hx => h x (by simp [hx]))
    simpa [utf8Valid, hstep] using ht

theorem charCount_of_ascii (s : Str) (h : ∀ b ∈ s, b ≤ 127) : charCount s = s.length := by
  induction s with
  | nil => rfl
  | cons b t ih =>
    have hb : b ≤ 127 := h b (by simp)
    have hcont : isContinuation b = false := by
      simp [isContinuation]
      omega
    simp only [charCount, List.filter_cons, hcont, Bool.not_false, if_pos, List.length_cons]
    have := ih (fun x hx => h x (by simp [hx]))
    simp only [charCount] at this
    omega

theorem natToDecAux_digits (f : Nat) :
    ∀ n, ∀ b ∈ natToDecAux f n, 48 ≤ b ∧ b ≤ 57 := by
  induction f with
  | zero => intro n b hb; simp [natToDecAux] at hb
  | succ f ih =>
    intro n b hb
    rw [natToDecAux] at hb
    by_cases hn : n < 10
    · rw [if_pos hn] at hb
      simp at hb
      omega
    · rw [if_neg hn] at hb
      rcases List.mem_append.mp hb with h1 | h1
      · exact ih (n / 10) b h1
      · simp at h1
        have : n % 10 < 10 := Nat.mod_lt n (by norm_num)
        omega

theorem digitsToNat_append_digit (ds : Str) (d : Nat) :
    digitsToNat (ds ++ [d]) = digitsToNat ds * 10 + (d - 48) := by
  simp [digitsToNat, List.foldl_append]

theorem digitsToNat_natToDecAux (f : Nat) :
    ∀ n, n < 10 ^ f → digitsToNat (natToDecAux f n) = n := by
  induction f with
  | zero =>
    intro n hn
    interval_cases n
    rfl
  | succ f ih =>
    intro n hn
    rw [natToDecAux]
    by_cases h10 : n < 10
    · rw [if_pos h10]
      simp [digitsToNat]
    · rw [if_neg h10, digitsToNat_append_digit]
      have hdiv : n / 10 < 10 ^ f := by
        rw [Nat.div_lt_iff_lt_mul (by norm_num)]
        calc n < 10 ^ (f + 1) := hn
        _ = 10 ^ f * 10 := by ring
      rw [ih (n / 10) hdiv]
      omega

theorem natToDec_digitsToNat (n : Nat) : digitsToNat (natToDec n) = n := by
  apply digitsToNat_natToDecAux
  calc n < 10 ^ n := Nat.lt_pow_self (by norm_num) n
  _ ≤ 10 ^ (n + 1) := Nat.pow_le_pow_right (by norm_num) (by omega)

theorem natToDec_digits (n : Nat) : ∀ b ∈ natToDec n, 48 ≤ b ∧ b ≤ 57 :=
  natToDecAux_digits (n + 1) n

theorem natToDec_ne_nil (n : Nat) : natToDec n ≠ [] := by
  rw [natToDec, natToDecAux]
  by_cases h10 : n < 10
  · rw [if_pos h10]; simp
  · rw [if_neg h10]; simp

theorem natToDecAux_congr :
    ∀ n f g, n < 10 ^ f → n < 10 ^ g → 1 ≤ f → 1 ≤ g →
      natToDecAux f n = natToDecAux g n := by
  intro n
  induction n using Nat.strong_induction_on with
  | _ n ihn =>
    intro f g hf hg hf1 hg1
    obtain ⟨f', rfl⟩ : ∃ f', f = f' + 1 := ⟨f - 1, by omega⟩
    obtain ⟨g', rfl⟩ : ∃ g', g = g' + 1 := ⟨g - 1, by omega⟩
    rw [natToDecAux, natToDecAux]
    by_cases h10 : n < 10
    · rw [if_pos h10, if_pos h10]
    · rw [if_neg h10, if_neg h10]
      have hten : (10 : Nat) ≤ n := by omega
      have hdivlt : n / 10 < n := Nat.div_lt_self (by omega) (by norm_num)
      have hf' : 1 ≤ f' := by
        by_contra hc
        have : f' = 0 := by omega
        subst this
        simp at hf
        omega
      have hg' : 1 ≤ g' := by
        by_contra hc
        have : g' = 0 := by omega
        subst this
        simp at hg
        omega
      have hdf : n / 10 < 10 ^ f' := by
        rw [Nat.div_lt_iff_lt_mul (by norm_num)]
        calc n < 10 ^ (f' + 1) := hf
        _ = 10 ^ f' * 10 := by ring
      have hdg : n / 10 < 10 ^ g' := by
        rw [Nat.div_lt_iff_lt_mul (by norm_num)]
        calc n < 10 ^ (g' + 1) := hg
        _ = 10 ^ g' * 10 := by ring
      rw [ihn (n / 10) hdivlt f' g' hdf hdg hf' hg']

theorem natToDecAux_length_le (f : Nat) : ∀ n, (natToDecAux f n).length ≤ f := by
  induction f with
  | zero => intro n; simp [natToDecAux]
  | succ f ih =>
    intro n
    rw [natToDecAux]
    by_cases h10 : n < 10
    · rw [if_pos h10]; simp
    · rw [if_neg h10]
      simp only [List.length_append, List.length_cons, List.length_nil]
      have := ih (n / 10)
      omega

theorem natToDec_length_le_19 (n : Nat) (h : n < 2 ^ 63) : (natToDec n).length ≤ 19 := by
  have h19 : n < 10 ^ 19 := by
    calc n < 2 ^ 63 := h
    _ < 10 ^ 19 := by norm_num
  have hcongr : natToDec n = natToDecAux 19 n := by
    apply natToDecAux_congr n (n + 1) 19
    · calc n < 10 ^ n := Nat.lt_pow_self (by norm_num) n
      _ ≤ 10 ^ (n + 1) := Nat.pow_le_pow_right (by norm_num) (by omega)
    · exact h19
    · omega
    · norm_num
  rw [hcongr]
  exact natToDecAux_length_le 19 n

theorem i64Digits_pos (ds : Str) (hnil : ds ≠ [])
    (hdigits : ∀ b ∈ ds, 48 ≤ b ∧ b ≤ 57)
    (hle : digitsToNat ds ≤ 2 ^ 63 - 1) :
    i64Digits 1 ds = some (digitsToNat ds : Int) := by
  rw [i64Digits, if_neg hnil]
  have hall : ds.all isDigit = true := by
    rw [List.all_eq_true]
    intro b hb
    have := hdigits b hb
    simp [isDigit]
    omega
  rw [if_pos hall]
  have hrange : -(2 ^ 63 : Int) ≤ 1 * (digitsToNat ds : Int) ∧
      (1 : Int) * (digitsToNat ds : Int) ≤ 2 ^ 63 - 1 := by
    constructor
    · have hge : (0 : Int) ≤ (digitsToNat ds : Int) := Int.natCast_nonneg _
      omega
    · have hc : ((digitsToNat ds : Nat) : Int) ≤ ((2 ^ 63 - 1 : Nat) : Int) := by
        exact_mod_cast hle
      simp only [one_mul]
      calc (digitsToNat ds : Int) ≤ ((2 ^ 63 - 1 : Nat) : Int) := hc
      _ = 2 ^ 63 - 1 := by norm_num
  rw [if_pos hrange]
  simp

theorem i64FromBytes_natToDec (n : Nat) (h : n ≤ 2 ^ 63 - 1) :
    i64FromBytes (natToDec n) = some (n : Int) := by
  have hdigits := natToDec_digits n
  have hnil := natToDec_ne_nil n
  have hds : i64Digits 1 (natToDec n) = some (digitsToNat (natToDec n) : Int) :=
    i64Digits_pos (natToDec n) hnil hdigits (by rw [natToDec_digitsToNat]; exact h)
  rw [i64FromBytes.eq_def]
  split
  · next rest heq =>
    exfalso
    have := hdigits 43 (by rw [heq]; simp)
    omega
  · next rest heq =>
    exfalso
    have := hdigits 45 (by rw [heq]; simp)
    omega
  · next =>
    rw [hds, natToDec_digitsToNat]

theorem i64ToUsize_natCast (m : Nat) (hm : m < 2 ^ 64) : i64ToUsize (m : Int) = m := by
  rw [i64ToUsize, Int.emod_eq_of_lt (by positivity) (by exact_mod_cast hm)]
  simp

/-- Decoding the encoding of a value recovers the value and consumes
the whole encoding — the spec's round-trip law at one value. -/
def roundTrips (v : Value) : Prop :=
  ∃ e, v.encode = some e ∧ parseMessage e = some (.ok (v, e.length))

theorem parseMessage_simple_roundtrip (s : Str) (hv : utf8Valid s = true)
    (hc : hasCRLF s = false) :
    parseMessage (43 :: (s ++ [13, 10])) = some (.ok (.SimpleString s, s.length + 3)) := by
  have hread : readUntilCrlf (s ++ 13 :: 10 :: ([] : Str)) = some (s, s.length + 2) :=
    readUntilCrlf_append s [] hc
  rw [parseMessage]
  norm_num [decodeSimpleString, hread, parseString, hv]

theorem parseMessage_integer_roundtrip (s : Str) (hv : utf8Valid s = true)
    (hc : hasCRLF s = false) :
    parseMessage (58 :: (s ++ [13, 10])) = some (.ok (.Integer s, s.length + 3)) := by
  have hread : readUntilCrlf (s ++ 13 :: 10 :: ([] : Str)) = some (s, s.length + 2) :=
    readUntilCrlf_append s [] hc
  rw [parseMessage]
  norm_num [decodeInteger, hread, parseString, hv]

theorem parseMessage_bulk_roundtrip (s : Str) (ha : ∀ b ∈ s, b ≤ 127)
    (hlen : s.length < 2 ^ 63) :
    parseMessage (36 :: (natToDec (charCount s) ++ [13, 10] ++ s ++ [13, 10])) =
      some (.ok (.BulkString s,
        (natToDec (charCount s) ++ [13, 10] ++ s ++ [13, 10]).length + 1)) := by
  have hcc : charCount s = s.length := charCount_of_ascii s ha
  rw [hcc]
  have hdig := natToDec_digits s.length
  have hd19 : (natToDec s.length).length ≤ 19 := natToDec_length_le_19 s.length hlen
  have hDnoCR : hasCRLF (natToDec s.length) = false :=
    hasCRLF_eq_false_of_no_cr _ (fun b hb => by have := hdig b hb; omega)
  have hDascii : ∀ b ∈ natToDec s.length, b ≤ 127 :=
    fun b hb => by have := hdig b hb; omega
  have hassoc : natToDec s.length ++ [13, 10] ++ s ++ [13, 10] =
      natToDec s.length ++ 13 :: 10 :: (s ++ [13, 10]) := by simp
  have hread : readUntilCrlf (natToDec s.length ++ 13 :: 10 :: (s ++ [13, 10])) =
      some (natToDec s.length, (natToDec s.length).length + 2) :=
    readUntilCrlf_append _ (s ++ [13, 10]) hDnoCR
  have hint : parseInt64 (natToDec s.length) = .ok (s.length : Int) := by
    simp [parseInt64, parseString, utf8Valid_of_ascii _ hDascii,
      i64FromBytes_natToDec s.length (by omega)]
  have husize : i64ToUsize (s.length : Int) = s.length :=
    i64ToUsize_natCast s.length (by calc s.length < 2 ^ 63 := hlen
      _ < 2 ^ 64 := by norm_num)
  rw [parseMessage]
  rw [if_neg (by norm_num : ¬(36 = 43)), if_neg (by norm_num : ¬(36 = 58)),
    if_neg (by norm_num : ¬(36 = 42)), if_pos (rfl : (36 : Nat) = 36)]
  rw [decodeBulkString]
  rw [List.drop_succ_cons, List.drop_zero, hassoc, hread]
  simp only [hint, husize]
  have hmod1 : ((natToDec s.length).length + 2 + 1 + s.length) % 2 ^ 64 =
      (natToDec s.length).length + 2 + 1 + s.length := by
    apply Nat.mod_eq_of_lt
    have h63 : s.length < 2 ^ 63 := hlen
    have h64 : (2 : Nat) ^ 63 + 2 ^ 63 = 2 ^ 64 := by norm_num
    omega
  rw [hmod1]
  have hmod2 : ((natToDec s.length).length + 2 + 1 + s.length + 2) % 2 ^ 64 =
      (natToDec s.length).length + 2 + 1 + s.length + 2 := by
    apply Nat.mod_eq_of_lt
    have h63 : s.length < 2 ^ 63 := hlen
    have h64 : (2 : Nat) ^ 63 + 2 ^ 63 = 2 ^ 64 := by norm_num
    omega
  rw [hmod2]
  have hblen : (36 :: (natToDec s.length ++ 13 :: 10 :: (s ++ [13, 10]))).length =
      (natToDec s.length).length + s.length + 5 := by
    simp
    omega
  rw [hblen]
  rw [if_pos (show (natToDec s.length).length + 2 + 1 + s.length + 2 ≤
      (natToDec s.length).length + s.length + 5 by omega)]
  rw [if_pos (show (natToDec s.length).length + 2 + 1 ≤
        (natToDec s.length).length + 2 + 1 + s.length ∧
      (natToDec s.length).length + 2 + 1 + s.length ≤
        (natToDec s.length).length + s.length + 5 from ⟨by omega, by omega⟩)]
  have hslice :
      List.drop ((natToDec s.length).length + 2 + 1)
        (List.take ((natToDec s.length).length + 2 + 1 + s.length)
          (36 :: (natToDec s.length ++ 13 :: 10 :: (s ++ [13, 10])))) = s := by
    have hsplit : (36 : Nat) :: (natToDec s.length ++ 13 :: 10 :: (s ++ [13, 10])) =
        ((36 :: natToDec s.length ++ [13, 10]) ++ s) ++ [13, 10] := by simp
    rw [hsplit]
    have hplen : ((36 :: natToDec s.length ++ [13, 10] : Str)).length =
        (natToDec s.length).length + 3 := by simp
    have hlen1 : (((36 :: natToDec s.length ++ [13, 10]) ++ s : Str)).length =
        (natToDec s.length).length + 3 + s.length := by simp; omega
    rw [List.take_append_eq_append_take]
    rw [List.take_of_length_le (by rw [hlen1]), hlen1]
    have h0 : (natToDec s.length).length + 2 + 1 + s.length -
        ((natToDec s.length).length + 3 + s.length) = 0 := by omega
    rw [h0, List.take_zero, List.append_nil]
    rw [List.drop_append_eq_append_drop]
    rw [List.drop_eq_nil_of_le (by rw [hplen]), hplen]
    have h1 : (natToDec s.length).length + 2 + 1 - ((natToDec s.length).length + 3) = 0 := by
      omega
    rw [h1, List.drop_zero, List.nil_append]
  rw [hslice]
  have hps : parseString s = .ok s := by
    simp [parseString, utf8Valid_of_ascii s ha]
  rw [hps]
  have harith : (natToDec s.length).length + 2 + 1 + s.length + 2 =
      (natToDec s.length ++ 13 :: 10 :: (s ++ [13, 10])).length + 1 := by
    simp
    omega
  rw [harith]

/-- Decoding never recognizes the `-` prefix of an Error frame:
`parse_message` has no arm for it. -/
theorem parseMessage_on_dash_byte (x : Str) :
    parseMessage (45 :: x) = some (.error "unrecognised message type") := by
  rw [parseMessage]
  norm_num

/-- Decoding the Null encoding `$-1\r\n` fails: the negative bulk
length wraps and the buffer-length guard rejects it. -/
theorem parseMessage_null_encoding :
    parseMessage [36, 45, 49, 13, 10] = some (.error "Error in decoding simple array") := by
  rw [parseMessage]
  rfl

/-! ## Claims C3, C8, C9 -/

/-- Counterexample to C3: the claim includes the Error kind in the
round-trip law, but decoding the encoding of `Error "x"` fails with
"unrecognised message type" — `parse_message` has no `-` arm — so it
does not yield `(Error "x", 4)`. -/
theorem c3_error_kind_fails_roundtrip :
    Value.encode (.Err [120]) = some [45, 120, 13, 10] ∧
    parseMessage [45, 120, 13, 10] = some (.error "unrecognised message type") ∧
    parseMessage [45, 120, 13, 10] ≠ some (.ok (.Err [120], 4)) := by
  refine ⟨rfl, parseMessage_on_dash_byte [120, 13, 10], ?_⟩
  intro h
  rw [parseMessage_on_dash_byte [120, 13, 10]] at h
  simp at h

/-- C3 as amended: the round-trip law `decode(encode v) = (v, |encode v|)`
holds for SimpleString and Integer values whose payload is valid UTF-8
with no embedded CR LF pair, and for BulkString values with ASCII
payload of length below `2^63` (the encoded length is the character
count, which the byte-oriented decoder re-reads as a byte count, so
non-ASCII payloads truncate).  It fails for the Error kind (decode has
no `-` arm), for Null (its encoding `$-1\r\n` is rejected as a
negative bulk length), and for every Array (encode panics). -/
theorem c3_roundtrip_amended :
    (∀ s, utf8Valid s = true → hasCRLF s = false → roundTrips (.SimpleString s)) ∧
    (∀ s, utf8Valid s = true → hasCRLF s = false → roundTrips (.Integer s)) ∧
    (∀ s, (∀ b ∈ s, b ≤ 127) → s.length < 2 ^ 63 → roundTrips (.BulkString s)) ∧
    (∀ msg, ¬roundTrips (.Err msg)) ∧
    ¬roundTrips .Null ∧
    (∀ items, (Value.Arr items).encode = none) := by
  refine ⟨?_, ?_, ?_, ?_, ?_, fun items => rfl⟩
  · intro s hv hc
    refine ⟨43 :: (s ++ [13, 10]), rfl, ?_⟩
    have h := parseMessage_simple_roundtrip s hv hc
    have hl : (43 :: (s ++ [13, 10]) : Str).length = s.length + 3 := by simp
    rw [hl]
    exact h
  · intro s hv hc
    refine ⟨58 :: (s ++ [13, 10]), rfl, ?_⟩
    have h := parseMessage_integer_roundtrip s hv hc
    have hl : (58 :: (s ++ [13, 10]) : Str).length = s.length + 3 := by simp
    rw [hl]
    exact h
  · intro s ha hlen
    refine ⟨36 :: (natToDec (charCount s) ++ [13, 10] ++ s ++ [13, 10]), rfl, ?_⟩
    have h := parseMessage_bulk_roundtrip s ha hlen
    have hl : (36 :: (natToDec (charCount s) ++ [13, 10] ++ s ++ [13, 10]) : Str).length =
        (natToDec (charCount s) ++ [13, 10] ++ s ++ [13, 10]).length + 1 := by simp
    rw [hl]
    exact h
  · rintro msg ⟨e, he, hp⟩
    have he2 : e = 45 :: (msg ++ [13, 10]) := by
      simpa [Value.encode] using he.symm
    subst he2
    rw [parseMessage_on_dash_byte] at hp
    simp at hp
  · rintro ⟨e, he, hp⟩
    have he2 : e = [36, 45, 49, 13, 10] := by
      simpa [Value.encode] using he.symm
    subst he2
    rw [parseMessage_null_encoding] at hp
    simp at hp

/-- Witness for C3 as amended: the spec's own examples `+OK\r\n`,
`:5\r\n` and `$11\r\nbulk_string\r\n` round-trip. -/
theorem c3_roundtrip_amended_witness :
    roundTrips (.SimpleString [79, 75]) ∧
    roundTrips (.Integer [53]) ∧
    roundTrips (.BulkString [98, 117, 108, 107, 95, 115, 116, 114, 105, 110, 103]) :=
  ⟨c3_roundtrip_amended.1 [79, 75] (by decide) (by decide),
   c3_roundtrip_amended.2.1 [53] (by decide) (by decide),
   c3_roundtrip_amended.2.2.1 [98, 117, 108, 107, 95, 115, 116, 114, 105, 110, 103]
     (by decide) (by norm_num)⟩

/-- C8: decode distinguishes its failure classes.  An unparseable bulk
or array length fails with the malformed-length error (literal text
"Could not parse integer"), while a bulk string whose declared length
exceeds the remaining bytes yields the distinct incomplete-input
error (literal text "Error in decoding simple array"). -/
theorem c8_decode_failure_classes :
    (∀ bs line len, readUntilCrlf bs = some (line, len) →
      utf8Valid line = true → i64FromBytes line = none →
      parseMessage (36 :: bs) = some (.error "Could not parse integer") ∧
      parseMessage (42 :: bs) = some (.error "Could not parse integer")) ∧
    (∀ bs line len (n : Nat), readUntilCrlf bs = some (line, len) →
      parseInt64 line = .ok (n : Int) →
      bs.length + 1 < len + 1 + n + 2 →
      len + 1 + n + 2 < 2 ^ 64 →
      parseMessage (36 :: bs) = some (.error "Error in decoding simple array")) ∧
    ("Could not parse integer" : String) ≠ "Error in decoding simple array" := by
  refine ⟨?_, ?_, by decide⟩
  · intro bs line len hread hv hnone
    have hint : parseInt64 line = .error "Could not parse integer" := by
      simp [parseInt64, parseString, hv, hnone]
    constructor
    · rw [parseMessage]
      rw [if_neg (by norm_num : ¬(36 = 43)), if_neg (by norm_num : ¬(36 = 58)),
        if_neg (by norm_num : ¬(36 = 42)), if_pos (rfl : (36 : Nat) = 36)]
      rw [decodeBulkString, List.drop_succ_cons, List.drop_zero, hread]
      simp [hint]
    · rw [parseMessage]
      rw [if_neg (by norm_num : ¬(42 = 43)), if_neg (by norm_num : ¬(42 = 58)),
        if_pos (rfl : (42 : Nat) = 42)]
      rw [hread]
      simp [hint]
  · intro bs line len n hread hint hshort hsmall
    have husize : i64ToUsize (n : Int) = n := i64ToUsize_natCast n (by omega)
    rw [parseMessage]
    rw [if_neg (by norm_num : ¬(36 = 43)), if_neg (by norm_num : ¬(36 = 58)),
      if_neg (by norm_num : ¬(36 = 42)), if_pos (rfl : (36 : Nat) = 36)]
    rw [decodeBulkString, List.drop_succ_cons, List.drop_zero, hread]
    simp only [hint, husize]
    have hmod1 : (len + 1 + n) % 2 ^ 64 = len + 1 + n := Nat.mod_eq_of_lt (by omega)
    have hmod2 : (len + 1 + n + 2) % 2 ^ 64 = len + 1 + n + 2 := Nat.mod_eq_of_lt (by omega)
    rw [hmod1, hmod2]
    have hblen : (36 :: bs : Str).length = bs.length + 1 := by simp
    rw [hblen]
    rw [if_neg (by omega : ¬(len + 1 + n + 2 ≤ bs.length + 1))]

/-- Witness for C8: the bulk header `$ab\r\n` and the array header
`*ab\r\n` both fail with the malformed-length error, while `$5\r\nab`
(five declared bytes, two present) fails with the distinct
incomplete-input error. -/
theorem c8_decode_failure_classes_witness :
    parseMessage [36, 97, 98, 13, 10] = some (.error "Could not parse integer") ∧
    parseMessage [42, 97, 98, 13, 10] = some (.error "Could not parse integer") ∧
    parseMessage [36, 53, 13, 10, 97, 98] =
      some (.error "Error in decoding simple array") :=
  ⟨(c8_decode_failure_classes.1 [97, 98, 13, 10] [97, 98] 4 (by decide) (by decide)
      (by decide)).1,
   (c8_decode_failure_classes.1 [97, 98, 13, 10] [97, 98] 4 (by decide) (by decide)
      (by decide)).2,
   c8_decode_failure_classes.2.1 [53, 13, 10, 97, 98] [53] 3 5 (by decide) rfl
     (by norm_num) (by norm_num)⟩

/-- Counterexample to C9: decoding is not total at the public
interface — on the empty buffer `parse_message` reads `buffer[0]` and
panics (modelled by `none`), rather than returning a value or an
error. -/
theorem c9_empty_buffer_panics : parseMessage [] = none := by
  simp [parseMessage]

/-- C9 as amended: `parse_message` panics (index out of range) on the
empty buffer and on an array header whose declared item count exceeds
the complete items present (the recursive item parse hits an empty
buffer), while a bulk-string header with a negative declared length
such as `$-1\r\n` returns a decode error (release-build wrapping
`usize` arithmetic) rather than a value or a panic. -/
theorem c9_decode_panic_boundary :
    parseMessage [] = none ∧
    parseMessage [42, 49, 13, 10] = none ∧
    parseMessage [36, 45, 49, 13, 10] = some (.error "Error in decoding simple array") := by
  refine ⟨by simp [parseMessage], ?_, parseMessage_null_encoding⟩
  have h1 : parseItems 1 ([] : Str) = none := by
    rw [parseItems.eq_def]
    simp only []
    rw [parseMessage]
  rw [parseMessage]
  norm_num [(show readUntilCrlf [49, 13, 10] = some ([49], 3) from rfl),
    (show parseInt64 [49] = Except.ok 1 from rfl), h1]

end BaderDb
